import Mathlib

/-!
Verification development for the flurs `Evaluator` protocol
(`src/flurs/evaluator.py`): a shallow embedding of the evaluator's
fit / batch_update / batch_evaluate / evaluate pipeline, together with
theorems about its candidate-set construction, observation bookkeeping,
metric bounds and failure behaviour.

The concrete `Recommender` base classes of the repository
(`flurs.recommender`) are not part of the sources at hand; following
the specification they are treated as an abstract capability contract
(`Rec`), and the registration bookkeeping the evaluator relies on
(user/item counters, per-user observed sets) is modelled from the
specification's data model.
-/

namespace Flurs

/-- One user of an event: a dense integer identity plus an (abstracted)
feature vector. Feature vectors and contexts are opaque to the
evaluator, so they are represented by a single natural-number tag. -/
structure User where
  index : ℕ
  feature : ℕ
deriving DecidableEq, Repr

/-- One item of an event, analogous to `User`. -/
structure Item where
  index : ℕ
  feature : ℕ
deriving DecidableEq, Repr

/-- A positive-feedback interaction `(user, item, value, context)` as
consumed by the evaluator. -/
structure Event where
  user : User
  item : Item
  value : ℕ
  context : ℕ
deriving DecidableEq, Repr

/-- Modelled from the spec: the registration bookkeeping of the missing
`flurs.recommender` base class that `Evaluator` reads and mutates —
counts of registered users and items (identities are dense integers
assigned on first sighting, so the registered index sets are
`range nUser` / `range nItem`), and for every user the set of observed
item indices (empty for unknown users). -/
structure RecState where
  nUser : ℕ
  nItem : ℕ
  observed : ℕ → Finset ℕ

/-- Modelled from the spec: the initial (freshly `init_model`-ed)
registration state — no users, no items, all observed sets empty. -/
def initReg : RecState := ⟨0, 0, fun _ => ∅⟩

/-- Modelled from the spec: the abstract recommender capability contract
(`init_model`, `add_user`/`add_item`, `update_user_feature`/
`update_item_feature`, `update`, `recommend`) over an opaque model-state
type `M`.  `Option ℕ` arguments stand for the context/feature arguments
that are passed only on the feature-aware call paths.  `recommend`
returns the ranked candidate indices together with their scores. -/
structure Rec (M : Type) where
  initM : M
  addUserM : M → ℕ → Option ℕ → M
  addItemM : M → ℕ → Option ℕ → M
  updUserFeat : M → ℕ → ℕ → M
  updItemFeat : M → ℕ → ℕ → M
  updateM : M → ℕ → ℕ → ℕ → Option ℕ → Bool → M
  recommendM : M → ℕ → List ℕ → Option ℕ → List ℕ × List ℚ

/-- Full evaluator-visible state: the registration bookkeeping plus the
recommender's own model state. -/
structure EvState (M : Type) where
  reg : RecState
  model : M

/-- Registration effect of `Evaluator.__validate_user` on the
bookkeeping state alone: a user index is new iff it is not below the
current user count; registering it bumps the count. -/
def validateRegU (r : RecState) (e : Event) : RecState :=
  if e.user.index < r.nUser then r else { r with nUser := r.nUser + 1 }

/-- Registration effect of `Evaluator.__validate_item` on the
bookkeeping state alone. -/
def validateRegI (r : RecState) (e : Event) : RecState :=
  if e.item.index < r.nItem then r else { r with nItem := r.nItem + 1 }

/-- Registration effect of `Evaluator.__validate` (user first, then
item) on the bookkeeping state alone. -/
def validateReg (r : RecState) (e : Event) : RecState :=
  validateRegI (validateRegU r e) e

/-- Embedding of `Evaluator.__validate_user` (evaluator.py:182-189): if
the user is new, register it — passing the context only on the
feature-aware path. -/
def validateU {M : Type} (R : Rec M) (fr : Bool) (s : EvState M) (e : Event) : EvState M :=
  if e.user.index < s.reg.nUser then s
  else ⟨{ s.reg with nUser := s.reg.nUser + 1 },
        R.addUserM s.model e.user.index (if fr then some e.context else none)⟩

/-- Embedding of `Evaluator.__validate_item` (evaluator.py:191-198). -/
def validateI {M : Type} (R : Rec M) (fr : Bool) (s : EvState M) (e : Event) : EvState M :=
  if e.item.index < s.reg.nItem then s
  else ⟨{ s.reg with nItem := s.reg.nItem + 1 },
        R.addItemM s.model e.item.index (if fr then some e.item.feature else none)⟩

/-- Embedding of `Evaluator.__validate` (evaluator.py:178-180). -/
def validate {M : Type} (R : Rec M) (fr : Bool) (s : EvState M) (e : Event) : EvState M :=
  validateI R fr (validateU R fr s e) e

/-- Embedding of `self.rec.users[e.user.index]['observed'].add(e.item.index)`
(evaluator.py:54, 65, 152). -/
def addObserved {M : Type} (s : EvState M) (e : Event) : EvState M :=
  { s with reg := { s.reg with
      observed := Function.update s.reg.observed e.user.index
        (insert e.item.index (s.reg.observed e.user.index)) } }

/-- Embedding of `Evaluator.__update` (evaluator.py:160-168).  On the
feature-aware path the source refreshes the user feature and then calls
`update_item_feature(e.user.index, e.item.feature)` — with the *user's*
index (evaluator.py:163) — before the model update. -/
def updStep {M : Type} (R : Rec M) (fr : Bool) (s : EvState M) (e : Event)
    (isBatchTrain : Bool) : EvState M :=
  if fr then
    let m1 := R.updUserFeat s.model e.user.index e.user.feature
    let m2 := R.updItemFeat m1 e.user.index e.item.feature
    ⟨s.reg, R.updateM m2 e.user.index e.item.index e.value (some e.context) isBatchTrain⟩
  else
    ⟨s.reg, R.updateM s.model e.user.index e.item.index e.value none isBatchTrain⟩

/-- Embedding of `Evaluator.__recommend` (evaluator.py:170-176): on the
feature-aware path refresh the user feature and the item feature (here
with `e.item.index`, evaluator.py:173), then recommend over the given
target indices.  Returns the state (the feature refreshes persist) and
the `(recos, scores)` pair. -/
def recStep {M : Type} (R : Rec M) (fr : Bool) (s : EvState M) (e : Event)
    (targets : List ℕ) : EvState M × List ℕ × List ℚ :=
  if fr then
    let m1 := R.updUserFeat s.model e.user.index e.user.feature
    let m2 := R.updItemFeat m1 e.item.index e.item.feature
    (⟨s.reg, m2⟩, R.recommendM m2 e.user.index targets (some e.context))
  else
    (s, R.recommendM s.model e.user.index targets none)

/-- Candidate set of `Evaluator.evaluate` (evaluator.py:137-141): all
registered items; when repeats are disallowed, subtract the user's
observed set and re-insert the true item. -/
def candidateSet (cr : Bool) (r : RecState) (e : Event) : Finset ℕ :=
  if cr then Finset.range r.nItem
  else insert e.item.index (Finset.range r.nItem \ r.observed e.user.index)

/-- One iteration of the `Evaluator.evaluate` loop (evaluator.py:133-158):
validate, build the candidate set, recommend, compute the rank of the
true item, mark the item observed, update the model, and yield
`(top-1 score, rank)` (wall-clock timings are not modelled); the
candidate set is returned as well. -/
def evalStep {M : Type} (R : Rec M) (fr cr : Bool) (s : EvState M) (e : Event) :
    EvState M × ℚ × ℕ × Finset ℕ :=
  let s1 := validate R fr s e
  let cand := candidateSet cr s1.reg e
  let targets := cand.sort (· ≤ ·)
  let s2 := (recStep R fr s1 e targets).1
  let recos := (recStep R fr s1 e targets).2.1
  let scores := (recStep R fr s1 e targets).2.2
  let rank := recos.indexOf e.item.index
  let s3 := addObserved s2 e
  let s4 := updStep R fr s3 e false
  (s4, scores.headI, rank, cand)

/-- Embedding of the generator `Evaluator.evaluate` (evaluator.py:123-158)
as the sequential processing of the test events: the state produced by
one event's step is the state the next event is scored against. -/
def evaluate {M : Type} (R : Rec M) (fr cr : Bool) :
    EvState M → List Event → EvState M × List (ℚ × ℕ × Finset ℕ)
  | s, [] => (s, [])
  | s, e :: es =>
    let r := evalStep R fr cr s e
    let rest := evaluate R fr cr r.1 es
    (rest.1, r.2 :: rest.2)

/-- Loop body of `Evaluator.batch_evaluate` (evaluator.py:104-119).
`all_items` is created once before the loop and *aliased* by
`unobserved = all_items`; the in-place `-=` and `.add` therefore thread
the mutated set into the following iterations, which this embedding
reproduces by passing the updated set on.  Per event it records the
candidate set and the percentile `pos / (len(recos) - 1) * 100`. -/
def batchEvalGo {M : Type} (R : Rec M) (fr cr : Bool) :
    EvState M → Finset ℕ → List Event → EvState M × List (Finset ℕ × ℚ)
  | s, _, [] => (s, [])
  | s, allItems, e :: es =>
    let u := if cr then allItems
             else insert e.item.index (allItems \ s.reg.observed e.user.index)
    let targets := u.sort (· ≤ ·)
    let s' := (recStep R fr s e targets).1
    let recos := (recStep R fr s e targets).2.1
    let pct : ℚ := (recos.indexOf e.item.index : ℚ) / ((recos.length : ℚ) - 1) * 100
    let rest := batchEvalGo R fr cr s' u es
    (rest.1, (u, pct) :: rest.2)

/-- Arithmetic mean of a list of rationals (`np.mean`). -/
def mean (l : List ℚ) : ℚ := l.sum / l.length

/-- Embedding of `Evaluator.batch_evaluate` (evaluator.py:92-121): run
the loop starting from `all_items = set(range(n_item))` and return the
mean of the percentiles, together with the resulting state (the
feature refreshes of `__recommend` persist in the model). -/
def batchEvaluate {M : Type} (R : Rec M) (fr cr : Bool) (s : EvState M)
    (tests : List Event) : EvState M × ℚ :=
  let r := batchEvalGo R fr cr s (Finset.range s.reg.nItem) tests
  (r.1, mean (r.2.map Prod.snd))

/-- Bootstrap pass of `Evaluator.fit` (evaluator.py:52-54): validate
each training event and add the item to the user's observed set; no
model update. -/
def bootstrap {M : Type} (R : Rec M) (fr : Bool) (s : EvState M)
    (train : List Event) : EvState M :=
  train.foldl (fun t e => addObserved (validate R fr t e) e) s

/-- Pre-registration pass of `Evaluator.fit` (evaluator.py:57-58):
validate each test event without touching observed sets. -/
def preRegister {M : Type} (R : Rec M) (fr : Bool) (s : EvState M)
    (tests : List Event) : EvState M :=
  tests.foldl (fun t e => validate R fr t e) s

/-- Fold-in pass of `Evaluator.fit` (evaluator.py:64-66): for each test
event mark the item observed, then apply a single-event (non-batch)
update. -/
def foldIn {M : Type} (R : Rec M) (fr : Bool) (s : EvState M)
    (tests : List Event) : EvState M :=
  tests.foldl (fun t e => updStep R fr (addObserved t e) e false) s

/-- Epoch loop of `Evaluator.batch_update` (evaluator.py:77-90), with
the shuffling of `np.random.shuffle` abstracted by a caller-supplied
`sh` (indexed by the remaining epoch count).  When `nEpoch ≠ 1` the
current training list is shuffled *in place* (the reordered list is
carried to the next epoch and returned to the caller); each epoch then
applies batch-train updates in list order and runs `batch_evaluate`
(whose MPR is only logged, but whose model mutations persist). -/
def batchUpdateLoop {M : Type} (R : Rec M) (fr cr : Bool)
    (sh : ℕ → List Event → List Event) (nEpoch : ℕ) (tests : List Event) :
    ℕ → EvState M → List Event → EvState M × List Event
  | 0, s, tr => (s, tr)
  | k + 1, s, tr =>
    let tr' := if nEpoch ≠ 1 then sh k tr else tr
    let s1 := tr'.foldl (fun t e => updStep R fr t e true) s
    let s2 := (batchEvaluate R fr cr s1 tests).1
    batchUpdateLoop R fr cr sh nEpoch tests k s2 tr'

/-- Embedding of `Evaluator.batch_update` (evaluator.py:68-90).  The
second component is the training list as left behind by the in-place
shuffles. -/
def batchUpdate {M : Type} (R : Rec M) (fr cr : Bool)
    (sh : ℕ → List Event → List Event) (s : EvState M)
    (train tests : List Event) (nEpoch : ℕ) : EvState M × List Event :=
  batchUpdateLoop R fr cr sh nEpoch tests nEpoch s train

/-- Embedding of `Evaluator.fit` (evaluator.py:37-66): reset the model,
bootstrap on the training events, pre-register the test events, run the
batch update, then fold the test events in.  The second component is
the caller's training list as left behind by `batch_update`'s in-place
shuffles. -/
def fit {M : Type} (R : Rec M) (fr cr : Bool)
    (sh : ℕ → List Event → List Event) (train tests : List Event)
    (nEpoch : ℕ) : EvState M × List Event :=
  let s0 : EvState M := ⟨initReg, R.initM⟩
  let s1 := bootstrap R fr s0 train
  let s2 := preRegister R fr s1 tests
  let r3 := batchUpdate R fr cr sh s2 train tests nEpoch
  (foldIn R fr r3.1 tests, r3.2)

/-- One call made by the evaluator on the wrapped recommender, used to
reason about call sequences. -/
inductive RecCall where
  | addUser (index : ℕ) (context : Option ℕ)
  | addItem (index : ℕ) (feature : Option ℕ)
  | updateUserFeature (index feature : ℕ)
  | updateItemFeature (index feature : ℕ)
  | update (user item value : ℕ) (context : Option ℕ) (isBatchTrain : Bool)
deriving DecidableEq, Repr

/-- The recommender instance that records every call it receives; its
`recommend` returns the targets unchanged with zero scores. -/
def traceRec : Rec (List RecCall) where
  initM := []
  addUserM := fun m i c => m ++ [RecCall.addUser i c]
  addItemM := fun m i f => m ++ [RecCall.addItem i f]
  updUserFeat := fun m i f => m ++ [RecCall.updateUserFeature i f]
  updItemFeat := fun m i f => m ++ [RecCall.updateItemFeature i f]
  updateM := fun m u i v c b => m ++ [RecCall.update u i v c b]
  recommendM := fun _ _ ts _ => (ts, ts.map fun _ => 0)

/-- A trivial recommender over a unit model state, used to evaluate the
evaluator's control flow on concrete inputs; its `recommend` returns
the targets unchanged with zero scores. -/
def unitRec : Rec Unit where
  initM := ()
  addUserM := fun m _ _ => m
  addItemM := fun m _ _ => m
  updUserFeat := fun m _ _ => m
  updItemFeat := fun m _ _ => m
  updateM := fun m _ _ _ _ _ => m
  recommendM := fun _ _ ts _ => (ts, ts.map fun _ => 0)

/-- Recognizer for model-update calls in a trace. -/
def isUpdateB : RecCall → Bool
  | RecCall.update _ _ _ _ _ => true
  | _ => false

/-- The calls `Evaluator.__update` makes (evaluator.py:160-168), in
order; on the feature-aware path the item-feature refresh is keyed by
`e.user.index` exactly as in the source (evaluator.py:163). -/
def updateCalls (fr : Bool) (e : Event) (b : Bool) : List RecCall :=
  if fr then
    [RecCall.updateUserFeature e.user.index e.user.feature,
     RecCall.updateItemFeature e.user.index e.item.feature,
     RecCall.update e.user.index e.item.index e.value (some e.context) b]
  else
    [RecCall.update e.user.index e.item.index e.value none b]

/-! ### Basic preservation lemmas -/

lemma validateU_reg {M : Type} (R : Rec M) (fr : Bool) (s : EvState M) (e : Event) :
    (validateU R fr s e).reg = validateRegU s.reg e := by
  unfold validateU validateRegU
  split <;> rfl

lemma validateI_reg {M : Type} (R : Rec M) (fr : Bool) (s : EvState M) (e : Event) :
    (validateI R fr s e).reg = validateRegI s.reg e := by
  unfold validateI validateRegI
  split <;> rfl

lemma validate_reg {M : Type} (R : Rec M) (fr : Bool) (s : EvState M) (e : Event) :
    (validate R fr s e).reg = validateReg s.reg e := by
  unfold validate validateReg
  rw [validateI_reg, validateU_reg]

lemma validateRegU_observed (r : RecState) (e : Event) :
    (validateRegU r e).observed = r.observed := by
  unfold validateRegU; split <;> rfl

lemma validateRegI_observed (r : RecState) (e : Event) :
    (validateRegI r e).observed = r.observed := by
  unfold validateRegI; split <;> rfl

lemma validateReg_observed (r : RecState) (e : Event) :
    (validateReg r e).observed = r.observed := by
  unfold validateReg
  rw [validateRegI_observed, validateRegU_observed]

lemma validate_observed {M : Type} (R : Rec M) (fr : Bool) (s : EvState M) (e : Event) :
    (validate R fr s e).reg.observed = s.reg.observed := by
  rw [validate_reg, validateReg_observed]

lemma updStep_reg {M : Type} (R : Rec M) (fr : Bool) (s : EvState M) (e : Event) (b : Bool) :
    (updStep R fr s e b).reg = s.reg := by
  unfold updStep; split <;> rfl

lemma recStep_reg {M : Type} (R : Rec M) (fr : Bool) (s : EvState M) (e : Event)
    (ts : List ℕ) : (recStep R fr s e ts).1.reg = s.reg := by
  unfold recStep; split <;> rfl

lemma addObserved_model {M : Type} (s : EvState M) (e : Event) :
    (addObserved s e).model = s.model := rfl

lemma addObserved_mem {M : Type} (s : EvState M) (e : Event) :
    e.item.index ∈ (addObserved s e).reg.observed e.user.index := by
  simp [addObserved]

lemma recStep_recos_perm {M : Type} (R : Rec M) (fr : Bool) (s : EvState M) (e : Event)
    (ts : List ℕ)
    (hperm : ∀ (m : M) (u : ℕ) (l : List ℕ) (c : Option ℕ), ((R.recommendM m u l c).1).Perm l) :
    ((recStep R fr s e ts).2.1).Perm ts := by
  unfold recStep
  split
  · simpa using hperm _ _ _ _
  · simpa using hperm _ _ _ _

/-! ### Claim theorems -/

/-- C1: in `Evaluator.evaluate`, the observed set consulted for an event
`e` is exactly the pre-event one (validation does not touch observed
sets), so the candidate set scored for `e` is built from the observed
state as it was before `e` was processed — `e.item.index` is never
counted as observed on account of `e` itself; after `e`'s step the
index *is* in the user's observed set (the mutation happens within
`e`'s step, after the recommend/rank computation and before the model
update, which the data flow of `evalStep` fixes); and the processing is
sequential: the results for the remaining events are computed from the
fully-updated state left by `e`'s step. -/
theorem evaluate_no_leakage {M : Type} (R : Rec M) (fr cr : Bool) (s : EvState M)
    (e : Event) (es : List Event) :
    (validate R fr s e).reg.observed = s.reg.observed
    ∧ (evalStep R fr cr s e).2.2.2
        = candidateSet cr ⟨(validate R fr s e).reg.nUser, (validate R fr s e).reg.nItem,
            s.reg.observed⟩ e
    ∧ e.item.index ∈ (evalStep R fr cr s e).1.reg.observed e.user.index
    ∧ evaluate R fr cr s (e :: es)
        = ((evaluate R fr cr (evalStep R fr cr s e).1 es).1,
           (evalStep R fr cr s e).2 :: (evaluate R fr cr (evalStep R fr cr s e).1 es).2) := by
  refine ⟨validate_observed R fr s e, ?_, ?_, rfl⟩
  · have h := validate_observed R fr s e
    simp only [evalStep]
    rw [← h]
  · simp only [evalStep]
    rw [updStep_reg]
    exact addObserved_mem _ _

lemma validateU_trace_filter (fr : Bool) (s : EvState (List RecCall)) (e : Event) :
    ((validateU traceRec fr s e).model).filter isUpdateB = s.model.filter isUpdateB := by
  unfold validateU
  split
  · rfl
  · simp [traceRec, isUpdateB]

lemma validateI_trace_filter (fr : Bool) (s : EvState (List RecCall)) (e : Event) :
    ((validateI traceRec fr s e).model).filter isUpdateB = s.model.filter isUpdateB := by
  unfold validateI
  split
  · rfl
  · simp [traceRec, isUpdateB]

lemma validate_trace_filter (fr : Bool) (s : EvState (List RecCall)) (e : Event) :
    ((validate traceRec fr s e).model).filter isUpdateB = s.model.filter isUpdateB := by
  unfold validate
  rw [validateI_trace_filter, validateU_trace_filter]

lemma bootstrap_trace_filter (fr : Bool) :
    ∀ (train : List Event) (s : EvState (List RecCall)),
      ((bootstrap traceRec fr s train).model).filter isUpdateB = s.model.filter isUpdateB := by
  intro train
  induction train with
  | nil => intro s; rfl
  | cons e es ih =>
    intro s
    have hstep : bootstrap traceRec fr s (e :: es)
        = bootstrap traceRec fr (addObserved (validate traceRec fr s e) e) es := rfl
    rw [hstep, ih, addObserved_model, validate_trace_filter]

lemma preRegister_trace_filter (fr : Bool) :
    ∀ (tests : List Event) (s : EvState (List RecCall)),
      ((preRegister traceRec fr s tests).model).filter isUpdateB = s.model.filter isUpdateB := by
  intro tests
  induction tests with
  | nil => intro s; rfl
  | cons e es ih =>
    intro s
    have hstep : preRegister traceRec fr s (e :: es)
        = preRegister traceRec fr (validate traceRec fr s e) es := rfl
    rw [hstep, ih, validate_trace_filter]

lemma preRegister_observed {M : Type} (R : Rec M) (fr : Bool) :
    ∀ (tests : List Event) (s : EvState M),
      (preRegister R fr s tests).reg.observed = s.reg.observed := by
  intro tests
  induction tests with
  | nil => intro s; rfl
  | cons e es ih =>
    intro s
    have hstep : preRegister R fr s (e :: es) = preRegister R fr (validate R fr s e) es := rfl
    rw [hstep, ih, validate_observed]

lemma addObserved_validate_observed {M : Type} (R : Rec M) (fr : Bool) (s : EvState M)
    (e : Event) (u : ℕ) :
    (addObserved (validate R fr s e) e).reg.observed u
      = if u = e.user.index
        then insert e.item.index (s.reg.observed e.user.index)
        else s.reg.observed u := by
  simp [addObserved, Function.update_apply, validate_observed]

lemma bootstrap_observed {M : Type} (R : Rec M) (fr : Bool) :
    ∀ (train : List Event) (s : EvState M) (u i : ℕ),
      i ∈ (bootstrap R fr s train).reg.observed u ↔
        i ∈ s.reg.observed u ∨ ∃ e ∈ train, e.user.index = u ∧ e.item.index = i := by
  intro train
  induction train with
  | nil => intro s u i; simp [bootstrap]
  | cons e es ih =>
    intro s u i
    have hstep : bootstrap R fr s (e :: es)
        = bootstrap R fr (addObserved (validate R fr s e) e) es := rfl
    rw [hstep, ih, addObserved_validate_observed]
    by_cases h : u = e.user.index
    · subst h
      rw [if_pos rfl]
      simp only [Finset.mem_insert, List.mem_cons]
      constructor
      · rintro (⟨h1 | h1⟩ | ⟨e', he', h1, h2⟩)
        · exact Or.inr ⟨e, Or.inl rfl, rfl, h1.symm⟩
        · exact Or.inl h1
        · exact Or.inr ⟨e', Or.inr he', h1, h2⟩
      · rintro (h1 | ⟨e', he' | he', h1, h2⟩)
        · exact Or.inl (Or.inr h1)
        · subst he'; exact Or.inl (Or.inl h2.symm)
        · exact Or.inr ⟨e', he', h1, h2⟩
    · simp only [if_neg h, List.mem_cons]
      constructor
      · rintro (h1 | ⟨e', he', h1, h2⟩)
        · exact Or.inl h1
        · exact Or.inr ⟨e', Or.inr he', h1, h2⟩
      · rintro (h1 | ⟨e', he' | he', h1, h2⟩)
        · exact Or.inl h1
        · subst he'; exact absurd h1.symm h
        · exact Or.inr ⟨e', he', h1, h2⟩

/-- C4: the phase discipline of `Evaluator.fit`: (1) `fit` is exactly
init-model → bootstrap → pre-registration → batch update → fold-in, in
that order; (2) the bootstrap pass issues no model-update calls (its
call trace contains no `update`); (3) it marks exactly the training
interactions observed; (4) the pre-registration pass leaves every
observed set untouched and (5) also issues no model-update calls; and
(6) the fold-in pass, per test event, first marks the item observed and
then applies a single-event non-batch update. -/
theorem fit_phase_discipline {M : Type} (R : Rec M) (fr cr : Bool)
    (sh : ℕ → List Event → List Event) (train tests : List Event) (n : ℕ)
    (s : EvState M) (sT : EvState (List RecCall)) (u i : ℕ) (e : Event) (es : List Event) :
    fit R fr cr sh train tests n
      = (foldIn R fr
          (batchUpdate R fr cr sh
            (preRegister R fr (bootstrap R fr ⟨initReg, R.initM⟩ train) tests)
            train tests n).1 tests,
         (batchUpdate R fr cr sh
            (preRegister R fr (bootstrap R fr ⟨initReg, R.initM⟩ train) tests)
            train tests n).2)
    ∧ ((bootstrap traceRec fr sT train).model).filter isUpdateB = sT.model.filter isUpdateB
    ∧ (i ∈ (bootstrap R fr s train).reg.observed u ↔
        i ∈ s.reg.observed u ∨ ∃ e' ∈ train, e'.user.index = u ∧ e'.item.index = i)
    ∧ (preRegister R fr s tests).reg.observed = s.reg.observed
    ∧ ((preRegister traceRec fr sT tests).model).filter isUpdateB = sT.model.filter isUpdateB
    ∧ foldIn R fr s (e :: es) = foldIn R fr (updStep R fr (addObserved s e) e false) es :=
  ⟨rfl, bootstrap_trace_filter fr train sT, bootstrap_observed R fr train s u i,
   preRegister_observed R fr tests s, preRegister_trace_filter fr tests sT, rfl⟩

/-- C2: in `Evaluator.batch_evaluate` with `can_repeat = False` the
candidate universe is *not* rebuilt per event: `unobserved = all_items`
aliases the set built once before the loop, and the in-place `-=` /
`.add` mutations leak into later iterations.  Concretely, with three
registered items, user 0 observing `{0, 1}` and user 1 observing
nothing, the two test events `(user 0, item 2)` and `(user 1, item 0)`
receive the candidate sets `{2}` and `{0, 2}` — whereas rebuilding from
all registered items, as the claim states, would give the second event
`{0, 1, 2}`. -/
theorem batchEvaluate_alias_bug :
    ((batchEvalGo unitRec false false
        ⟨⟨2, 3, fun u => if u = 0 then {0, 1} else ∅⟩, ()⟩
        (Finset.range 3)
        [⟨⟨0, 0⟩, ⟨2, 0⟩, 1, 0⟩, ⟨⟨1, 0⟩, ⟨0, 0⟩, 1, 0⟩]).2.map Prod.fst)
      = [{2}, {0, 2}]
    ∧ insert (0 : ℕ) (Finset.range 3 \ (∅ : Finset ℕ)) = {0, 1, 2}
    ∧ ({0, 2} : Finset ℕ) ≠ {0, 1, 2} := by decide

/-- C3: the calls `Evaluator.__update` and `Evaluator.__recommend` make
on a feature-aware recommender, evaluated on an event with
`user.index = 0`, `item.index = 1`.  `__update` refreshes the item
feature with the *user's* index (`update_item_feature(0, 7)`,
evaluator.py:163) instead of the item's index 1 that the claim states,
while `__recommend` correctly uses the item's index
(`update_item_feature(1, 7)`); the plain variant makes no refresh calls
on either path. -/
theorem update_item_feature_index_bug :
    (updStep traceRec true ⟨initReg, []⟩ ⟨⟨0, 5⟩, ⟨1, 7⟩, 2, 9⟩ false).model
      = [RecCall.updateUserFeature 0 5, RecCall.updateItemFeature 0 7,
         RecCall.update 0 1 2 (some 9) false]
    ∧ (recStep traceRec true ⟨initReg, []⟩ ⟨⟨0, 5⟩, ⟨1, 7⟩, 2, 9⟩ []).1.model
      = [RecCall.updateUserFeature 0 5, RecCall.updateItemFeature 1 7]
    ∧ (updStep traceRec false ⟨initReg, []⟩ ⟨⟨0, 5⟩, ⟨1, 7⟩, 2, 9⟩ false).model
      = [RecCall.update 0 1 2 none false]
    ∧ (recStep traceRec false ⟨initReg, []⟩ ⟨⟨0, 5⟩, ⟨1, 7⟩, 2, 9⟩ []).1.model = []
    ∧ (0 : ℕ) ≠ 1 := by decide

lemma validateRegU_nItem (r : RecState) (e : Event) :
    (validateRegU r e).nItem = r.nItem := by
  unfold validateRegU; split <;> rfl

lemma validateReg_item_lt (r : RecState) (e : Event) (h : e.item.index ≤ r.nItem) :
    e.item.index < (validateReg r e).nItem := by
  unfold validateReg validateRegI
  by_cases hc : e.item.index < (validateRegU r e).nItem
  · rw [if_pos hc]; exact hc
  · rw [if_neg hc]
    have hU := validateRegU_nItem r e
    simp only [hU]
    omega

lemma mem_candidateSet_of_le {M : Type} (R : Rec M) (fr cr : Bool) (s : EvState M)
    (e : Event) (h : e.item.index ≤ s.reg.nItem) :
    e.item.index ∈ candidateSet cr (validate R fr s e).reg e := by
  unfold candidateSet
  split
  · rw [Finset.mem_range, validate_reg]
    exact validateReg_item_lt _ _ h
  · exact Finset.mem_insert_self _ _

/-- C5: for every step of `Evaluator.evaluate`, provided the
recommender's `recommend` returns a permutation of the given candidates
and the event's item index is dense with respect to the current
registration state (at most the next fresh index, so that validation
registers it), the true item is a member of the candidate set — when
`can_repeat = False` because it is force-inserted, when
`can_repeat = True` because it is registered — and the yielded rank
satisfies `rank < card(candidate set)` (`rank : ℕ`, so `0 ≤ rank`
holds by type). -/
theorem evaluate_rank_bounds {M : Type} (R : Rec M) (fr cr : Bool) (s : EvState M) (e : Event)
    (hperm : ∀ (m : M) (u : ℕ) (l : List ℕ) (c : Option ℕ), ((R.recommendM m u l c).1).Perm l)
    (hdense : e.item.index ≤ s.reg.nItem) :
    e.item.index ∈ (evalStep R fr cr s e).2.2.2
    ∧ (evalStep R fr cr s e).2.2.1 < (evalStep R fr cr s e).2.2.2.card := by
  have hmem := mem_candidateSet_of_le R fr cr s e hdense
  simp only [evalStep]
  refine ⟨hmem, ?_⟩
  have hp := recStep_recos_perm R fr (validate R fr s e) e
      ((candidateSet cr (validate R fr s e).reg e).sort (· ≤ ·)) hperm
  have hmem2 : e.item.index ∈ (recStep R fr (validate R fr s e) e
      ((candidateSet cr (validate R fr s e).reg e).sort (· ≤ ·))).2.1 :=
    hp.mem_iff.mpr ((Finset.mem_sort (· ≤ ·)).mpr hmem)
  have hlt := List.indexOf_lt_length.mpr hmem2
  rwa [hp.length_eq, Finset.length_sort] at hlt

/-- Witness for C5 at a concrete input: the trivial recommender on a
fresh state and the event `(user 0, item 0)`. -/
theorem evaluate_rank_bounds_wit :
    (∀ (m : Unit) (u : ℕ) (l : List ℕ) (c : Option ℕ), ((unitRec.recommendM m u l c).1).Perm l)
    ∧ (⟨⟨0, 0⟩, ⟨0, 0⟩, 1, 0⟩ : Event).item.index ≤ (⟨initReg, ()⟩ : EvState Unit).reg.nItem
    ∧ ((⟨⟨0, 0⟩, ⟨0, 0⟩, 1, 0⟩ : Event).item.index
        ∈ (evalStep unitRec false false ⟨initReg, ()⟩ ⟨⟨0, 0⟩, ⟨0, 0⟩, 1, 0⟩).2.2.2
      ∧ (evalStep unitRec false false ⟨initReg, ()⟩ ⟨⟨0, 0⟩, ⟨0, 0⟩, 1, 0⟩).2.2.1
        < (evalStep unitRec false false ⟨initReg, ()⟩ ⟨⟨0, 0⟩, ⟨0, 0⟩, 1, 0⟩).2.2.2.card) :=
  ⟨fun _ _ l _ => List.Perm.refl l, by decide,
   evaluate_rank_bounds unitRec false false ⟨initReg, ()⟩ ⟨⟨0, 0⟩, ⟨0, 0⟩, 1, 0⟩
     (fun _ _ l _ => List.Perm.refl l) (by decide)⟩

/-- Non-degeneracy of a `batch_evaluate` run: along the (aliased)
candidate-set threading of the loop, each event's candidate set
contains the event's item and has at least two elements. -/
def goOK (cr : Bool) (obs : ℕ → Finset ℕ) : Finset ℕ → List Event → Bool
  | _, [] => true
  | a, e :: es =>
    let u := if cr then a else insert e.item.index (a \ obs e.user.index)
    decide (e.item.index ∈ u) && decide (2 ≤ u.card) && goOK cr obs u es

lemma pct_bounds (idx len : ℕ) (hlt : idx < len) (h2 : 2 ≤ len) :
    0 ≤ (idx : ℚ) / ((len : ℚ) - 1) * 100 ∧ (idx : ℚ) / ((len : ℚ) - 1) * 100 ≤ 100 := by
  have hden : (0 : ℚ) < (len : ℚ) - 1 := by
    have h2' : (2 : ℚ) ≤ (len : ℚ) := by exact_mod_cast h2
    linarith
  constructor
  · have h1 : (0 : ℚ) ≤ (idx : ℚ) / ((len : ℚ) - 1) :=
      div_nonneg (by positivity) (le_of_lt hden)
    nlinarith
  · have hle : (idx : ℚ) ≤ (len : ℚ) - 1 := by
      have h1 : (idx : ℚ) + 1 ≤ (len : ℚ) := by exact_mod_cast hlt
      linarith
    have hdiv : (idx : ℚ) / ((len : ℚ) - 1) ≤ 1 := (div_le_one hden).mpr hle
    nlinarith

lemma mean_bounds (l : List ℚ) (hne : l ≠ []) (h : ∀ x ∈ l, 0 ≤ x ∧ x ≤ 100) :
    0 ≤ mean l ∧ mean l ≤ 100 := by
  have hlen : (0 : ℚ) < (l.length : ℚ) := by
    have hp := List.length_pos.mpr hne
    exact_mod_cast hp
  have hsum0 : (0 : ℚ) ≤ l.sum := List.sum_nonneg (fun x hx => (h x hx).1)
  have hsum1 : l.sum ≤ 100 * (l.length : ℚ) := by
    have hb := List.sum_le_card_nsmul l 100 (fun x hx => (h x hx).2)
    simpa [nsmul_eq_mul, mul_comm] using hb
  constructor
  · exact div_nonneg hsum0 (le_of_lt hlen)
  · rw [mean, div_le_iff₀ hlen]
    linarith

lemma batchEvalGo_pct_bounds {M : Type} (R : Rec M) (fr cr : Bool)
    (hperm : ∀ (m : M) (u : ℕ) (l : List ℕ) (c : Option ℕ), ((R.recommendM m u l c).1).Perm l) :
    ∀ (tests : List Event) (s : EvState M) (a : Finset ℕ),
      goOK cr s.reg.observed a tests = true →
      ∀ p ∈ (batchEvalGo R fr cr s a tests).2, 0 ≤ p.2 ∧ p.2 ≤ 100 := by
  intro tests
  induction tests with
  | nil => intro s a _ p hp; simp [batchEvalGo] at hp
  | cons e es ih =>
    intro s a h p hp
    rw [goOK] at h
    simp only [Bool.and_eq_true, decide_eq_true_eq] at h
    obtain ⟨⟨hmem, hcard⟩, hrest⟩ := h
    rw [batchEvalGo] at hp
    simp only [List.mem_cons] at hp
    rcases hp with hp | hp
    · subst hp
      have hp2 := recStep_recos_perm R fr s e
          (((if cr then a else insert e.item.index (a \ s.reg.observed e.user.index)).sort
            (· ≤ ·))) hperm
      have hmem2 : e.item.index ∈ (recStep R fr s e
          (((if cr then a else insert e.item.index (a \ s.reg.observed e.user.index)).sort
            (· ≤ ·)))).2.1 :=
        hp2.mem_iff.mpr ((Finset.mem_sort (· ≤ ·)).mpr hmem)
      have hlt := List.indexOf_lt_length.mpr hmem2
      have hlen : 2 ≤ (recStep R fr s e
          (((if cr then a else insert e.item.index (a \ s.reg.observed e.user.index)).sort
            (· ≤ ·)))).2.1.length := by
        rw [hp2.length_eq, Finset.length_sort]
        exact hcard
      exact pct_bounds _ _ hlt hlen
    · have hreg : (recStep R fr s e
          (((if cr then a else insert e.item.index (a \ s.reg.observed e.user.index)).sort
            (· ≤ ·)))).1.reg = s.reg := recStep_reg _ _ _ _ _
      have hok : goOK cr ((recStep R fr s e
          (((if cr then a else insert e.item.index (a \ s.reg.observed e.user.index)).sort
            (· ≤ ·)))).1.reg.observed)
          (if cr then a else insert e.item.index (a \ s.reg.observed e.user.index)) es
          = true := by
        rw [hreg]; exact hrest
      exact ih _ _ hok p hp

lemma batchEvalGo_length {M : Type} (R : Rec M) (fr cr : Bool) :
    ∀ (tests : List Event) (s : EvState M) (a : Finset ℕ),
      ((batchEvalGo R fr cr s a tests).2).length = tests.length := by
  intro tests
  induction tests with
  | nil => intro s a; rfl
  | cons e es ih =>
    intro s a
    rw [batchEvalGo]
    simp only [List.length_cons]
    rw [ih]

/-- C6: `Evaluator.batch_evaluate` returns the arithmetic mean, over
the test events, of `pos / (len(recos) - 1) * 100` where `pos` is the
0-based position of the true item in the ranked output; under a
permutation-returning recommender, for a non-empty test set in which
every event's candidate set (as actually threaded through the loop)
contains the true item and has at least two elements, every per-event
percentile and the returned mean lie in `[0, 100]`. -/
theorem batchEvaluate_mpr_bounds {M : Type} (R : Rec M) (fr cr : Bool) (s : EvState M)
    (tests : List Event)
    (hperm : ∀ (m : M) (u : ℕ) (l : List ℕ) (c : Option ℕ), ((R.recommendM m u l c).1).Perm l)
    (hne : tests ≠ [])
    (hok : goOK cr s.reg.observed (Finset.range s.reg.nItem) tests = true) :
    (∀ p ∈ (batchEvalGo R fr cr s (Finset.range s.reg.nItem) tests).2, 0 ≤ p.2 ∧ p.2 ≤ 100)
    ∧ (batchEvaluate R fr cr s tests).2
        = mean (((batchEvalGo R fr cr s (Finset.range s.reg.nItem) tests).2).map Prod.snd)
    ∧ 0 ≤ (batchEvaluate R fr cr s tests).2 ∧ (batchEvaluate R fr cr s tests).2 ≤ 100 := by
  have hbd := batchEvalGo_pct_bounds R fr cr hperm tests s (Finset.range s.reg.nItem) hok
  refine ⟨hbd, rfl, ?_⟩
  have hlen : ((batchEvalGo R fr cr s (Finset.range s.reg.nItem) tests).2).length
      = tests.length := batchEvalGo_length R fr cr tests s _
  have hne2 : (((batchEvalGo R fr cr s (Finset.range s.reg.nItem) tests).2).map Prod.snd) ≠ [] := by
    intro hcontra
    have h0 := congrArg List.length hcontra
    simp only [List.length_map, List.length_nil, hlen] at h0
    exact hne (List.length_eq_zero.mp h0)
  have hall : ∀ x ∈ (((batchEvalGo R fr cr s (Finset.range s.reg.nItem) tests).2).map Prod.snd),
      0 ≤ x ∧ x ≤ 100 := by
    intro x hx
    rw [List.mem_map] at hx
    obtain ⟨p, hp, hpx⟩ := hx
    rw [← hpx]
    exact hbd p hp
  exact mean_bounds _ hne2 hall

/-- Witness for C6 at a concrete input: two registered items, no
observations, one test event on item 0 with repeats allowed. -/
theorem batchEvaluate_mpr_bounds_wit :
    ([(⟨⟨0, 0⟩, ⟨0, 0⟩, 1, 0⟩ : Event)] ≠ [])
    ∧ goOK true (fun _ => (∅ : Finset ℕ)) (Finset.range 2) [⟨⟨0, 0⟩, ⟨0, 0⟩, 1, 0⟩] = true
    ∧ (0 ≤ (batchEvaluate unitRec false true ⟨⟨1, 2, fun _ => ∅⟩, ()⟩
          [⟨⟨0, 0⟩, ⟨0, 0⟩, 1, 0⟩]).2
      ∧ (batchEvaluate unitRec false true ⟨⟨1, 2, fun _ => ∅⟩, ()⟩
          [⟨⟨0, 0⟩, ⟨0, 0⟩, 1, 0⟩]).2 ≤ 100) :=
  ⟨by decide, by decide,
   ((batchEvaluate_mpr_bounds unitRec false true ⟨⟨1, 2, fun _ => ∅⟩, ()⟩
      [⟨⟨0, 0⟩, ⟨0, 0⟩, 1, 0⟩] (fun _ _ l _ => List.Perm.refl l)
      (by decide) (by decide)).2.2)⟩

lemma batchUpdate_one {M : Type} (R : Rec M) (fr cr : Bool)
    (sh : ℕ → List Event → List Event) (s : EvState M) (train tests : List Event) :
    batchUpdate R fr cr sh s train tests 1
      = ((batchEvaluate R fr cr (train.foldl (fun t e => updStep R fr t e true) s) tests).1,
         train) := by
  simp [batchUpdate, batchUpdateLoop]

/-- C7: with `n_epoch = 1`, `batch_update` applies the batch-train
updates over `train_events` in exactly the supplied order and never
consults the shuffle source; consequently `fit` (and therefore the
`(rank, top1_score)` sequence later produced by `evaluate` from the
fitted state) is identical across runs that differ only in the shuffle
randomness. -/
theorem single_epoch_deterministic {M : Type} (R : Rec M) (fr cr : Bool)
    (sh1 sh2 : ℕ → List Event → List Event) (s : EvState M)
    (train tests evs : List Event) :
    batchUpdate R fr cr sh1 s train tests 1
      = ((batchEvaluate R fr cr (train.foldl (fun t e => updStep R fr t e true) s) tests).1,
         train)
    ∧ fit R fr cr sh1 train tests 1 = fit R fr cr sh2 train tests 1
    ∧ ((evaluate R fr cr (fit R fr cr sh1 train tests 1).1 evs).2.map
        (fun r => (r.2.2.1, r.1)))
      = ((evaluate R fr cr (fit R fr cr sh2 train tests 1).1 evs).2.map
        (fun r => (r.2.2.1, r.1))) := by
  have hfit : fit R fr cr sh1 train tests 1 = fit R fr cr sh2 train tests 1 := by
    simp only [fit]
    rw [batchUpdate_one, batchUpdate_one]
  exact ⟨batchUpdate_one R fr cr sh1 s train tests, hfit, by rw [hfit]⟩

/-- Dense indexing of an event stream with respect to a registration
state: every first-seen user/item index is at most the next fresh index
(the spec's dense, monotonically-assigned identities). -/
def dense : RecState → List Event → Bool
  | _, [] => true
  | r, e :: es =>
    decide (e.user.index ≤ r.nUser) && decide (e.item.index ≤ r.nItem)
      && dense (validateReg r e) es

lemma validateRegI_nUser (r : RecState) (e : Event) :
    (validateRegI r e).nUser = r.nUser := by
  unfold validateRegI; split <;> rfl

lemma validateRegU_nUser_le (r : RecState) (e : Event) :
    r.nUser ≤ (validateRegU r e).nUser := by
  unfold validateRegU
  split
  · exact le_refl _
  · exact Nat.le_succ _

lemma validateRegI_nItem_le (r : RecState) (e : Event) :
    r.nItem ≤ (validateRegI r e).nItem := by
  unfold validateRegI
  split
  · exact le_refl _
  · exact Nat.le_succ _

lemma validateReg_nUser_le (r : RecState) (e : Event) :
    r.nUser ≤ (validateReg r e).nUser := by
  unfold validateReg
  rw [validateRegI_nUser]
  exact validateRegU_nUser_le r e

lemma validateReg_nItem_le (r : RecState) (e : Event) :
    r.nItem ≤ (validateReg r e).nItem := by
  unfold validateReg
  calc r.nItem = (validateRegU r e).nItem := (validateRegU_nItem r e).symm
    _ ≤ (validateRegI (validateRegU r e) e).nItem := validateRegI_nItem_le _ e

lemma foldl_validateReg_nUser_le :
    ∀ (l : List Event) (r : RecState), r.nUser ≤ (l.foldl validateReg r).nUser := by
  intro l
  induction l with
  | nil => intro r; exact le_refl _
  | cons e es ih =>
    intro r
    rw [List.foldl_cons]
    exact le_trans (validateReg_nUser_le r e) (ih (validateReg r e))

lemma foldl_validateReg_nItem_le :
    ∀ (l : List Event) (r : RecState), r.nItem ≤ (l.foldl validateReg r).nItem := by
  intro l
  induction l with
  | nil => intro r; exact le_refl _
  | cons e es ih =>
    intro r
    rw [List.foldl_cons]
    exact le_trans (validateReg_nItem_le r e) (ih (validateReg r e))

lemma validateReg_user_lt (r : RecState) (e : Event) (h : e.user.index ≤ r.nUser) :
    e.user.index < (validateReg r e).nUser := by
  unfold validateReg
  rw [validateRegI_nUser]
  unfold validateRegU
  by_cases hc : e.user.index < r.nUser
  · rw [if_pos hc]; exact hc
  · rw [if_neg hc]
    show e.user.index < r.nUser + 1
    omega

lemma dense_registered :
    ∀ (l : List Event) (r : RecState), dense r l = true →
      ∀ e ∈ l, e.user.index < (l.foldl validateReg r).nUser
        ∧ e.item.index < (l.foldl validateReg r).nItem := by
  intro l
  induction l with
  | nil => intro r _ e he; simp at he
  | cons e es ih =>
    intro r h e' he'
    rw [dense] at h
    simp only [Bool.and_eq_true, decide_eq_true_eq] at h
    obtain ⟨⟨hu, hi⟩, hrest⟩ := h
    rw [List.foldl_cons]
    rcases List.mem_cons.mp he' with he' | he'
    · subst he'
      exact ⟨lt_of_lt_of_le (validateReg_user_lt r e' hu) (foldl_validateReg_nUser_le es _),
             lt_of_lt_of_le (validateReg_item_lt r e' hi) (foldl_validateReg_nItem_le es _)⟩
    · exact ih (validateReg r e) hrest e' he'

lemma preRegister_reg {M : Type} (R : Rec M) (fr : Bool) :
    ∀ (tests : List Event) (s : EvState M),
      (preRegister R fr s tests).reg = tests.foldl validateReg s.reg := by
  intro tests
  induction tests with
  | nil => intro s; rfl
  | cons e es ih =>
    intro s
    have hstep : preRegister R fr s (e :: es) = preRegister R fr (validate R fr s e) es := rfl
    rw [hstep, ih, validate_reg, List.foldl_cons]

lemma batchUpdateLoop_nil {M : Type} (R : Rec M) (fr cr : Bool)
    (sh : ℕ → List Event → List Event) (n : ℕ)
    (hsh : ∀ (k : ℕ) (l : List Event), (sh k l).Perm l) :
    ∀ (k : ℕ) (s : EvState M), batchUpdateLoop R fr cr sh n [] k s [] = (s, []) := by
  intro k
  induction k with
  | zero => intro s; rfl
  | succ k ih =>
    intro s
    have hnil : (if n ≠ 1 then sh k [] else []) = [] := by
      split
      · exact List.Perm.eq_nil (hsh k [])
      · rfl
    rw [batchUpdateLoop]
    simp only [hnil]
    exact ih _

/-- C8: zero-event calls are well-defined no-ops — `fit` on empty
training and test collections returns the freshly initialized state and
`evaluate` on an empty stream yields nothing and leaves the state
untouched; and with empty `train_events` and a (densely indexed)
non-empty-or-not `test_events`, after `fit`'s pre-registration phase
every test user and item index is registered while every user's
observed set is still empty. -/
theorem fit_empty_inputs {M : Type} (R : Rec M) (fr cr : Bool)
    (sh : ℕ → List Event → List Event) (s : EvState M) (n : ℕ) (tests : List Event)
    (hsh : ∀ (k : ℕ) (l : List Event), (sh k l).Perm l)
    (hdense : dense initReg tests = true) :
    fit R fr cr sh [] [] n = (⟨initReg, R.initM⟩, [])
    ∧ evaluate R fr cr s [] = (s, [])
    ∧ (∀ e ∈ tests,
        e.user.index < (preRegister R fr (bootstrap R fr ⟨initReg, R.initM⟩ []) tests).reg.nUser
        ∧ e.item.index < (preRegister R fr (bootstrap R fr ⟨initReg, R.initM⟩ []) tests).reg.nItem)
    ∧ (∀ u, (preRegister R fr (bootstrap R fr ⟨initReg, R.initM⟩ []) tests).reg.observed u = ∅) := by
  refine ⟨?_, rfl, ?_, ?_⟩
  · simp only [fit]
    have hb : bootstrap R fr ⟨initReg, R.initM⟩ ([] : List Event) = ⟨initReg, R.initM⟩ := rfl
    have hloop := batchUpdateLoop_nil R fr cr sh n hsh n (⟨initReg, R.initM⟩ : EvState M)
    rw [hb]
    show (foldIn R fr (batchUpdate R fr cr sh ⟨initReg, R.initM⟩ [] [] n).1 [],
          (batchUpdate R fr cr sh ⟨initReg, R.initM⟩ [] [] n).2) = (⟨initReg, R.initM⟩, [])
    rw [batchUpdate, hloop]
    rfl
  · intro e he
    have hreg := preRegister_reg R fr tests (bootstrap R fr ⟨initReg, R.initM⟩ [])
    rw [hreg]
    exact dense_registered tests _ hdense e he
  · intro u
    rw [preRegister_observed]
    rfl

/-- Witness for C8 at a concrete input: identity shuffle and a single
densely-indexed test event. -/
theorem fit_empty_inputs_wit :
    dense initReg [(⟨⟨0, 3⟩, ⟨0, 4⟩, 1, 0⟩ : Event)] = true
    ∧ (fit unitRec false false (fun _ l => l) [] [] 1 = (⟨initReg, ()⟩, [])
      ∧ evaluate unitRec false false ⟨initReg, ()⟩ [] = (⟨initReg, ()⟩, [])
      ∧ (∀ e ∈ [(⟨⟨0, 3⟩, ⟨0, 4⟩, 1, 0⟩ : Event)],
          e.user.index < (preRegister unitRec false (bootstrap unitRec false ⟨initReg, ()⟩ [])
              [(⟨⟨0, 3⟩, ⟨0, 4⟩, 1, 0⟩ : Event)]).reg.nUser
          ∧ e.item.index < (preRegister unitRec false (bootstrap unitRec false ⟨initReg, ()⟩ [])
              [(⟨⟨0, 3⟩, ⟨0, 4⟩, 1, 0⟩ : Event)]).reg.nItem)
      ∧ (∀ u, (preRegister unitRec false (bootstrap unitRec false ⟨initReg, ()⟩ [])
          [(⟨⟨0, 3⟩, ⟨0, 4⟩, 1, 0⟩ : Event)]).reg.observed u = ∅)) :=
  ⟨by decide,
   fit_empty_inputs unitRec false false (fun _ l => l) ⟨initReg, ()⟩ 1
     [(⟨⟨0, 3⟩, ⟨0, 4⟩, 1, 0⟩ : Event)] (fun _ l => List.Perm.refl l) (by decide)⟩

lemma batchUpdateLoop_perm {M : Type} (R : Rec M) (fr cr : Bool)
    (sh : ℕ → List Event → List Event) (n : ℕ) (tests : List Event)
    (hsh : ∀ (k : ℕ) (l : List Event), (sh k l).Perm l) :
    ∀ (k : ℕ) (s : EvState M) (tr : List Event),
      ((batchUpdateLoop R fr cr sh n tests k s tr).2).Perm tr := by
  intro k
  induction k with
  | zero => intro s tr; exact List.Perm.refl tr
  | succ k ih =>
    intro s tr
    rw [batchUpdateLoop]
    have htr : (if n ≠ 1 then sh k tr else tr).Perm tr := by
      split
      · exact hsh k tr
      · exact List.Perm.refl tr
    exact (ih _ _).trans htr

lemma batchUpdateLoop_one {M : Type} (R : Rec M) (fr cr : Bool)
    (sh : ℕ → List Event → List Event) (tests : List Event) :
    ∀ (k : ℕ) (s : EvState M) (tr : List Event),
      (batchUpdateLoop R fr cr sh 1 tests k s tr).2 = tr := by
  intro k
  induction k with
  | zero => intro s tr; rfl
  | succ k ih =>
    intro s tr
    rw [batchUpdateLoop]
    simp only [ne_eq, not_true_eq_false, if_false]
    exact ih _ _

/-- C9 counterexample: `fit` does *not* leave the caller's
`train_events` list unchanged for every `n_epoch`: `batch_update`
shuffles it in place when `n_epoch != 1`.  With a shuffle source that
reverses the list, two distinct training events and `n_epoch = 3`, the
list `fit` hands back is the reversal of the supplied one. -/
theorem fit_mutates_train_cex :
    (fit unitRec false true (fun _ l => l.reverse)
        [⟨⟨0, 0⟩, ⟨0, 0⟩, 1, 0⟩, ⟨⟨1, 0⟩, ⟨1, 0⟩, 1, 0⟩] [] 3).2
      = [⟨⟨1, 0⟩, ⟨1, 0⟩, 1, 0⟩, ⟨⟨0, 0⟩, ⟨0, 0⟩, 1, 0⟩]
    ∧ ([(⟨⟨1, 0⟩, ⟨1, 0⟩, 1, 0⟩ : Event), ⟨⟨0, 0⟩, ⟨0, 0⟩, 1, 0⟩]
        ≠ [(⟨⟨0, 0⟩, ⟨0, 0⟩, 1, 0⟩ : Event), ⟨⟨1, 0⟩, ⟨1, 0⟩, 1, 0⟩]) := by decide

/-- C9 as amended: the test collection is never touched by `fit` (the
source contains no statement mutating it), and the caller's training
list is returned unchanged when `n_epoch = 1`; when `n_epoch ≠ 1` the
in-place shuffles leave it a permutation of the supplied list (for any
permutation-valued shuffle source), but not necessarily in the supplied
order. -/
theorem fit_train_permutation {M : Type} (R : Rec M) (fr cr : Bool)
    (sh : ℕ → List Event → List Event) (train tests : List Event) (n : ℕ)
    (hsh : ∀ (k : ℕ) (l : List Event), (sh k l).Perm l) :
    ((fit R fr cr sh train tests n).2).Perm train
    ∧ (n = 1 → (fit R fr cr sh train tests n).2 = train) := by
  constructor
  · simp only [fit]
    exact batchUpdateLoop_perm R fr cr sh n tests hsh n _ train
  · intro h1
    subst h1
    simp only [fit]
    exact batchUpdateLoop_one R fr cr sh tests 1 _ train

/-- Witness for the amended C9 at a concrete input: identity shuffle,
one training event, one epoch. -/
theorem fit_train_permutation_wit :
    ((fit unitRec false false (fun _ l => l) [⟨⟨0, 0⟩, ⟨0, 0⟩, 1, 0⟩] [] 1).2).Perm
        [⟨⟨0, 0⟩, ⟨0, 0⟩, 1, 0⟩]
    ∧ ((1 : ℕ) = 1 →
        (fit unitRec false false (fun _ l => l) [⟨⟨0, 0⟩, ⟨0, 0⟩, 1, 0⟩] [] 1).2
          = [⟨⟨0, 0⟩, ⟨0, 0⟩, 1, 0⟩]) :=
  fit_train_permutation unitRec false false (fun _ l => l)
    [⟨⟨0, 0⟩, ⟨0, 0⟩, 1, 0⟩] [] 1 (fun _ l => List.Perm.refl l)

/-- The `can_repeat` attribute as left by `Evaluator.__init__`
(evaluator.py:21-32): the constructor stores the recommender, detects
feature-awareness and calls `init_model`, but never assigns
`can_repeat` — the attribute is absent until `set_can_repeat` runs. -/
def initCanRepeat : Option Bool := none

/-- Embedding of `Evaluator.set_can_repeat` (evaluator.py:34-35). -/
def setCanRepeat (_ : Option Bool) (b : Bool) : Option Bool := some b

/-- The `AttributeError` raised on reading the absent attribute. -/
def canRepeatErr : String := "AttributeError: can_repeat"

lemma batchUpdateLoop_nil_tests_cr {M : Type} (R : Rec M) (fr : Bool) (a b : Bool)
    (sh : ℕ → List Event → List Event) (n : ℕ) :
    ∀ (k : ℕ) (s : EvState M) (tr : List Event),
      batchUpdateLoop R fr a sh n [] k s tr = batchUpdateLoop R fr b sh n [] k s tr := by
  intro k
  induction k with
  | zero => intro s tr; rfl
  | succ k ih =>
    intro s tr
    rw [batchUpdateLoop, batchUpdateLoop]
    exact ih _ _

lemma fit_nil_tests_cr {M : Type} (R : Rec M) (fr : Bool) (a b : Bool)
    (sh : ℕ → List Event → List Event) (train : List Event) (n : ℕ) :
    fit R fr a sh train [] n = fit R fr b sh train [] n := by
  simp only [fit, batchUpdate]
  rw [batchUpdateLoop_nil_tests_cr R fr a b sh n n
    (preRegister R fr (bootstrap R fr ⟨initReg, R.initM⟩ train) []) train]

lemma fit_zero_cr {M : Type} (R : Rec M) (fr : Bool) (a b : Bool)
    (sh : ℕ → List Event → List Event) (train tests : List Event) :
    fit R fr a sh train tests 0 = fit R fr b sh train tests 0 := rfl

/-- `Evaluator.batch_evaluate` with the `can_repeat` attribute possibly
absent: the attribute is first read inside the per-event loop
(evaluator.py:109), so with no test events the call completes without
touching it (the result is independent of any repeat policy), while
with at least one event and the attribute absent the call raises. -/
def batchEvaluateA {M : Type} (R : Rec M) (fr : Bool) (crA : Option Bool)
    (s : EvState M) (tests : List Event) : Except String (EvState M × ℚ) :=
  match tests, crA with
  | [], _ => .ok (batchEvaluate R fr true s [])
  | _ :: _, none => .error canRepeatErr
  | _ :: _, some cr => .ok (batchEvaluate R fr cr s tests)

/-- `Evaluator.evaluate` with the `can_repeat` attribute possibly
absent: the attribute is read per consumed event (evaluator.py:138),
so consuming no result never reads it, while consuming the first
result with the attribute absent raises. -/
def evaluateA {M : Type} (R : Rec M) (fr : Bool) (crA : Option Bool)
    (s : EvState M) (tests : List Event) :
    Except String (EvState M × List (ℚ × ℕ × Finset ℕ)) :=
  match tests, crA with
  | [], _ => .ok (s, [])
  | _ :: _, none => .error canRepeatErr
  | _ :: _, some cr => .ok (evaluate R fr cr s tests)

/-- `Evaluator.fit` with the `can_repeat` attribute possibly absent:
the attribute is only ever read through `batch_evaluate`, which `fit`
reaches once per epoch; so the run fails iff some epoch runs (`n ≥ 1`)
and the test set is non-empty.  On the non-failing paths the attribute
is never read, so the repeat policy passed to `fit` there is provably
irrelevant (`fit_zero_cr`, `fit_nil_tests_cr`). -/
def fitA {M : Type} (R : Rec M) (fr : Bool) (crA : Option Bool)
    (sh : ℕ → List Event → List Event) (train tests : List Event) (n : ℕ) :
    Except String (EvState M × List Event) :=
  match crA with
  | some cr => .ok (fit R fr cr sh train tests n)
  | none =>
    match n, tests with
    | 0, _ => .ok (fit R fr true sh train tests 0)
    | Nat.succ k, [] => .ok (fit R fr true sh train [] (Nat.succ k))
    | Nat.succ _, _ :: _ => .error canRepeatErr

/-- C10: on a freshly constructed evaluator (where `can_repeat` was
never set), `fit` with a non-empty test set and at least one epoch,
`batch_evaluate` with a non-empty test set, and `evaluate` consuming at
least one event all fail with the attribute error instead of falling
back to a default repeat policy; `set_can_repeat` is what installs the
attribute. -/
theorem fresh_evaluator_missing_can_repeat {M : Type} (R : Rec M) (fr : Bool)
    (sh : ℕ → List Event → List Event) (s : EvState M)
    (train tests evs : List Event) (n : ℕ)
    (hte : tests ≠ []) (hn : 1 ≤ n) (hev : evs ≠ []) :
    fitA R fr initCanRepeat sh train tests n = .error canRepeatErr
    ∧ batchEvaluateA R fr initCanRepeat s tests = .error canRepeatErr
    ∧ evaluateA R fr initCanRepeat s evs = .error canRepeatErr
    ∧ (∀ b, setCanRepeat initCanRepeat b = some b) := by
  refine ⟨?_, ?_, ?_, fun b => rfl⟩
  · cases n with
    | zero => omega
    | succ k =>
      cases tests with
      | nil => exact absurd rfl hte
      | cons e es => rfl
  · cases tests with
    | nil => exact absurd rfl hte
    | cons e es => rfl
  · cases evs with
    | nil => exact absurd rfl hev
    | cons e es => rfl

/-- Witness for C10 at a concrete input. -/
theorem fresh_evaluator_missing_can_repeat_wit :
    ([(⟨⟨0, 0⟩, ⟨0, 0⟩, 1, 0⟩ : Event)] ≠ []) ∧ (1 : ℕ) ≤ 1
    ∧ (fitA unitRec false initCanRepeat (fun _ l => l) [] [⟨⟨0, 0⟩, ⟨0, 0⟩, 1, 0⟩] 1
        = .error canRepeatErr
      ∧ batchEvaluateA unitRec false initCanRepeat ⟨initReg, ()⟩ [⟨⟨0, 0⟩, ⟨0, 0⟩, 1, 0⟩]
        = .error canRepeatErr
      ∧ evaluateA unitRec false initCanRepeat ⟨initReg, ()⟩ [⟨⟨0, 0⟩, ⟨0, 0⟩, 1, 0⟩]
        = .error canRepeatErr
      ∧ (∀ b, setCanRepeat initCanRepeat b = some b)) :=
  ⟨by decide, by decide,
   fresh_evaluator_missing_can_repeat unitRec false (fun _ l => l) ⟨initReg, ()⟩
     [] [⟨⟨0, 0⟩, ⟨0, 0⟩, 1, 0⟩] [⟨⟨0, 0⟩, ⟨0, 0⟩, 1, 0⟩] 1
     (by decide) (by decide) (by decide)⟩

end Flurs
